import Mathlib

/-!
# RustyCog: a shallow embedding of the task-pool core

This file embeds the data model and operations of the RustyCog task pool
(`src/cog.rs`, `src/engine.rs`, `src/machine.rs`, `src/error.rs`,
`src/types.rs`) and proves properties of the submission, distribution,
stealing and retrieval operations.

Modelling conventions:
* `CogId` is `i32` in the source but is used as a non-negative index
  (`id mod P` indexes the engine vector); the spec states ids are
  non-negative and monotonically increasing, and Rust's checked
  arithmetic aborts on overflow rather than wrapping, so ids are
  modelled as `Nat`.
* The single-shot callable (`FnOnce() -> T` invoked under
  `catch_unwind`) is modelled by its outcome `CogWork T := Option T`:
  `some v` means the call returns `v`, `none` means it panics.
* `Arc<Mutex<Cog>>` sharing between the registry and the engine queues
  is modelled by value passing; facade operations write the mutated cog
  back into the registry, mirroring what the shared mutex makes visible.
* The per-unit latch (`done : Arc<(Mutex<bool>, Condvar)>`) is the
  boolean `done`; condition-variable blocking is modelled by an
  evolution function parameter (see `Machine.wait_for_result`).
* A Rust panic that unwinds out of a facade method is modelled by an
  `Option`/`none` result carrying the machine state at the unwind point
  (mutations made through `&mut self` before the panic persist).
* Worker threads themselves (`JoinHandle`, `thread::spawn`) are not
  modelled; the engine records keep the fields the facade and the
  stealing pass read and write.
-/

namespace RustyCog

variable {T : Type}

/-- Source `types.rs`: `pub type CogId = i32;` used as a non-negative index. -/
abbrev CogId := Nat

/-- Outcome of invoking the single-shot callable under `catch_unwind`:
`some v` = ordinary return of `v`, `none` = the callable panicked. -/
abbrev CogWork (T : Type) := Option T

/-- Source `cog.rs`: `enum CogState<T> { Waiting, Running, Panicked, Removed, Done(T) }` -/
inductive CogState (T : Type) where
  | Waiting : CogState T
  | Running : CogState T
  | Panicked : CogState T
  | Removed : CogState T
  | Done : T → CogState T
deriving DecidableEq

/-- Source `error.rs`: `enum CogError` (payloads follow the usage in `cog.rs` /
`machine.rs`: only `NotInserted` is constructed with the id). -/
inductive CogError where
  | NotInserted : CogId → CogError
  | Removed : CogError
  | NotCompleted : CogError
  | Panicked : CogError
  | AlreadyRan : CogError
deriving DecidableEq

/-- Source `error.rs`: `enum MachineError { AlreadyPowered }` -/
inductive MachineError where
  | AlreadyPowered : MachineError
deriving DecidableEq

/-- Source `cog.rs`: `struct Cog<T, F> { id, done, state, func }`; `done` is the
boolean behind the latch's `(Mutex<bool>, Condvar)`. -/
structure Cog (T : Type) where
  id : CogId
  done : Bool
  state : CogState T
  func : Option (CogWork T)
deriving DecidableEq

/-- Model of `Cog::new(id, func)`: state `Waiting`, latch false, callable present. -/
def Cog.new (id : CogId) (func : CogWork T) : Cog T :=
  { id := id, done := false, state := CogState.Waiting, func := some func }

/-- Model of `Cog::get_result` (`cog.rs` lines 54-69): `Done`/`Panicked` are moved
out via `mem::replace(&mut self.state, Removed)`; `Removed` and
`Waiting | Running` report errors without changing state. -/
def Cog.get_result (c : Cog T) : Except CogError T × Cog T :=
  match c.state with
  | CogState.Done result => (Except.ok result, { c with state := CogState.Removed })
  | CogState.Panicked => (Except.error CogError.Panicked, { c with state := CogState.Removed })
  | CogState.Removed => (Except.error CogError.Removed, c)
  | CogState.Waiting => (Except.error CogError.NotCompleted, c)
  | CogState.Running => (Except.error CogError.NotCompleted, c)

/-- Model of `Cog::run`: set `Running`, take the callable (`?` returns `AlreadyRan`
before the latch is touched), run under `catch_unwind`, record
`Done`/`Panicked`, then `notify_done` sets the latch. -/
def Cog.run (c : Cog T) : Except CogError Unit × Cog T :=
  let c0 := { c with state := CogState.Running }
  match c0.func with
  | none => (Except.error CogError.AlreadyRan, c0)
  | some w =>
    let c1 := { c0 with func := none }
    match w with
    | some v => (Except.ok (), { c1 with state := CogState.Done v, done := true })
    | none => (Except.error CogError.Panicked, { c1 with state := CogState.Panicked, done := true })

/-- Definition `take_result_spec` — modelled from the spec's words (§4.1,
*take_result()*): "If Done, moves the value out and transitions to
Removed; returns the value. If Panicked, transitions to Removed; returns
a panicked error. If Waiting or Running, returns a not-completed error
without changing state. If Removed, returns a removed error."
Written from the spec to be compared against `Cog.get_result`. -/
def take_result_spec (c : Cog T) : Except CogError T × Cog T :=
  match c.state with
  | CogState.Done v => (Except.ok v, { c with state := CogState.Removed })
  | CogState.Panicked => (Except.error CogError.Panicked, { c with state := CogState.Removed })
  | CogState.Waiting => (Except.error CogError.NotCompleted, c)
  | CogState.Running => (Except.error CogError.NotCompleted, c)
  | CogState.Removed => (Except.error CogError.Removed, c)

/-- Source `engine.rs`: `struct Engine<T>` — the fields the facade and the steal
pass touch (`_id`, `local_queue`, `termination_flag`); the thread handle
and the shared condvar references are not modelled. -/
structure Engine (T : Type) where
  _id : Nat
  local_queue : List (Cog T)
  termination_flag : Bool
deriving DecidableEq

instance : Inhabited (Engine T) := ⟨{ _id := 0, local_queue := [], termination_flag := false }⟩

/-- Model of `Engine::kill`: sets the termination flag (joining is not modelled). -/
def Engine.kill (e : Engine T) : Engine T :=
  { e with termination_flag := true }

/-- The loop body of `Engine::cog_steal` (`engine.rs` lines 85-105):
walk the engine vector with its index `i`; skip the entry equal to
`self` (the `Arc::ptr_eq` test); at the first other engine with a
non-empty queue, `drain(0..max(1, len / P))` from the head and stop.
`P` is the pool size `engines.read().unwrap().len()`. -/
def stealGo (P self : Nat) : Nat → List (Engine T) → Option (List (Cog T)) × List (Engine T)
  | _, [] => (none, [])
  | i, e :: es =>
    if i = self then
      let r := stealGo P self (i + 1) es
      (r.1, e :: r.2)
    else
      let len := e.local_queue.length
      if 0 < len then
        let k := max 1 (len / P)
        (some (e.local_queue.take k), { e with local_queue := e.local_queue.drop k } :: es)
      else
        let r := stealGo P self (i + 1) es
        (r.1, e :: r.2)

/-- Model of `Engine::cog_steal`: the engines and the index of the stealing engine
(distinct `Arc`s, so pointer equality is index equality). Returns the
stolen units and the updated engine list. -/
def Engine.cog_steal (engines : List (Engine T)) (self : Nat) :
    Option (List (Cog T)) × List (Engine T) :=
  stealGo engines.length self 0 engines

/-- The registry `cogs: HashMap<CogId, ArcMutexCog<T>>`, as an
association list with map semantics. -/
abbrev Registry (T : Type) := List (CogId × Cog T)

/-- Model of `HashMap::get`. -/
def regLookup (k : CogId) : Registry T → Option (Cog T)
  | [] => none
  | (k', v) :: rest => if k = k' then some v else regLookup k rest

/-- Model of `HashMap::insert`: overwrite the binding of `k` if present,
otherwise add it. -/
def regInsert (k : CogId) (v : Cog T) : Registry T → Registry T
  | [] => [(k, v)]
  | (k', v') :: rest =>
    if k = k' then (k, v) :: rest else (k', v') :: regInsert k v rest

/-- Model of `HashMap::remove`: delete the binding of `k`. -/
def regRemove (k : CogId) : Registry T → Registry T
  | [] => []
  | (k', v) :: rest =>
    if k = k' then regRemove k rest else (k', v) :: regRemove k rest

/-- Source `machine.rs`: `struct Machine<T>` — `work` is the boolean of the
shared `(Mutex<bool>, Condvar)` wake-up condition. -/
structure Machine (T : Type) where
  cog_id : CogId
  engine_id : Nat
  cogs : Registry T
  max_engines : Nat
  engines : List (Engine T)
  work : Bool
deriving DecidableEq

/-- Model of `Machine::cold(max_engines)`: empty registry, no engines. -/
def Machine.cold (T : Type) (max_engines : Nat) : Machine T :=
  { cog_id := 0, engine_id := 0, cogs := [], max_engines := max_engines,
    engines := [], work := false }

/-- Model of `Machine::spawn_engines(amount)`: push `amount` fresh engines with
increasing engine ids (thread start not modelled). -/
def Machine.spawn_engines (m : Machine T) : Nat → Machine T
  | 0 => m
  | n + 1 =>
    let m1 := { m with
      engines := m.engines ++ [({ _id := m.engine_id, local_queue := [], termination_flag := false } : Engine T)],
      engine_id := m.engine_id + 1 }
    m1.spawn_engines n

/-- Model of `Machine::powered(max_engines)`: cold construction followed by
`spawn_engines(max_engines)`. -/
def Machine.powered (T : Type) (max_engines : Nat) : Machine T :=
  (Machine.cold T max_engines).spawn_engines max_engines

/-- Model of `Machine::power`: spawn only when no engine exists. -/
def Machine.power (m : Machine T) : Except MachineError (Machine T) :=
  if m.engines.length = 0 then Except.ok (m.spawn_engines m.max_engines)
  else Except.error MachineError.AlreadyPowered

/-- Model of `Machine::notify_work`: set the shared work flag (and broadcast). -/
def Machine.notify_work (m : Machine T) : Machine T :=
  { m with work := true }

/-- Append one cog to the queue of the engine at index `i`. -/
def pushQueue (i : Nat) (c : Cog T) : List (Engine T) → List (Engine T)
  | [] => []
  | e :: es =>
    match i with
    | 0 => { e with local_queue := e.local_queue ++ [c] } :: es
    | j + 1 => e :: pushQueue j c es

/-- Append a batch to the queue of the engine at index `i`, in order. -/
def extendQueue (i : Nat) (cs : List (Cog T)) : List (Engine T) → List (Engine T)
  | [] => []
  | e :: es =>
    match i with
    | 0 => { e with local_queue := e.local_queue ++ cs } :: es
    | j + 1 => e :: extendQueue j cs es

/-- Model of `Machine::distribute_cog`: if any engine exists, push the cog onto
engine `cog.id mod P` and notify; otherwise do nothing. -/
def Machine.distribute_cog (m : Machine T) (cog : Cog T) : Machine T :=
  if 0 < m.engines.length then
    ({ m with engines := pushQueue (cog.id % m.engines.length) cog m.engines }).notify_work
  else m

/-- Model of `Machine::distribute_cog_batch` (`machine.rs` lines 195-205):
`cogs[0]` is read *before* the engine-count check, so an empty batch
panics with an index-out-of-bounds (modelled as `none`); otherwise, if
any engine exists, the whole batch is appended to engine
`cogs[0].id mod P` and the work condition is notified. -/
def Machine.distribute_cog_batch (m : Machine T) (cogs : List (Cog T)) :
    Option (Machine T) :=
  match cogs with
  | [] => none
  | c :: _ =>
    some (if 0 < m.engines.length then
      ({ m with engines := extendQueue (c.id % m.engines.length) cogs m.engines }).notify_work
    else m)

/-- Model of `Machine::insert_cog` (`machine.rs` lines 153-164): take the current
id, build the cog, insert it into the registry, distribute it, advance
the id by one, return the taken id. -/
def Machine.insert_cog (m : Machine T) (func : CogWork T) : Machine T × CogId :=
  let id := m.cog_id
  let cog := Cog.new id func
  let m1 := { m with cogs := regInsert id cog m.cogs }
  let m2 := m1.distribute_cog cog
  ({ m2 with cog_id := id + 1 }, id)

/-- The `for func in funcs` loop of `insert_cog_batch`: insert each new
cog into the registry under the shared id and collect the batch. -/
def buildBatch (id : CogId) (cogs : Registry T) :
    List (CogWork T) → Registry T × List (Cog T)
  | [] => (cogs, [])
  | f :: fs =>
    let c := Cog.new id f
    let r := buildBatch id (regInsert id c cogs) fs
    (r.1, c :: r.2)

/-- Model of `Machine::insert_cog_batch` (`machine.rs` lines 166-181): one id for
the whole batch; every unit inserted into the registry under that id;
then `distribute_cog_batch`; the id counter is advanced *after*
distribution, so if distribution panics (empty batch) the counter is
left unchanged and the registry holds whatever the loop inserted.
`none` in the first component models the unwinding panic; the machine
component is the state at that point. -/
def Machine.insert_cog_batch (m : Machine T) (funcs : List (CogWork T)) :
    Option CogId × Machine T :=
  let id := m.cog_id
  let r := buildBatch id m.cogs funcs
  let m1 := { m with cogs := r.1 }
  match m1.distribute_cog_batch r.2 with
  | none => (none, m1)
  | some m2 => (some id, { m2 with cog_id := id + 1 })

/-- Model of `matches!(result, Ok(_) | Err(CogError::Panicked(_)))` — the results
on which the facade removes the id from the registry. -/
def resultIsTerminal : Except CogError T → Bool
  | Except.ok _ => true
  | Except.error CogError.Panicked => true
  | _ => false

/-- Model of `Machine::get_result` (`machine.rs` lines 240-252): look the id up;
absent ids give `NotInserted`; otherwise `Cog::get_result` runs on the
shared cog (the registry sees the mutated cog), and on `Ok` or
`Panicked` the id is removed from the registry. -/
def Machine.get_result (m : Machine T) (id : CogId) : Except CogError T × Machine T :=
  match regLookup id m.cogs with
  | none => (Except.error (CogError.NotInserted id), m)
  | some cog =>
    let rc := cog.get_result
    let m1 := { m with cogs := regInsert id rc.2 m.cogs }
    if resultIsTerminal rc.1 then (rc.1, { m1 with cogs := regRemove id m1.cogs })
    else (rc.1, m1)

/-- Contents of the cog at the second lock acquisition of
`wait_for_result`. The source blocks on the unit's latch condvar *only
when the observed state is `Waiting`* (the `if let CogState::Waiting`
block); in every other state it proceeds directly to the second lock.
`during` gives the concurrent engine activity in between; the latch
blocking of the `Waiting` branch is expressed in theorems by hypotheses
on `during` (there, `(during cog).done = true`). Likewise, the mutual
exclusion on the cog is a hypothesis on the *observed* states, not on
`during`: the engine runs each unit via
`let _ = cog.lock().unwrap().run();` (`engine.rs` line 70), whose guard
is held across the whole of `Cog::run`, so a lock acquisition by the
facade never observes the state `Running` with the latch still false —
it blocks until the unit is terminal. -/
def secondLock (during : Cog T → Cog T) (cog : Cog T) : Cog T :=
  match cog.state with
  | CogState.Waiting => during cog
  | _ => during cog

/-- Model of `Machine::wait_for_result` (`machine.rs` lines 280-303):
look the id up; absent ids give `NotInserted`; otherwise block per
`secondLock`, then `Cog::get_result` runs on the shared cog, and on
`Ok` or `Panicked` the id is removed from the registry. -/
def Machine.wait_for_result (m : Machine T) (id : CogId) (during : Cog T → Cog T) :
    Except CogError T × Machine T :=
  match regLookup id m.cogs with
  | none => (Except.error (CogError.NotInserted id), m)
  | some cog =>
    let rc := (secondLock during cog).get_result
    let m1 := { m with cogs := regInsert id rc.2 m.cogs }
    if resultIsTerminal rc.1 then (rc.1, { m1 with cogs := regRemove id m1.cogs })
    else (rc.1, m1)

/-- The `for (_, cog) in self.cogs.iter()` pass of `wait_until_done`:
each iteration inspects the state; the `Done(_)` arm has an empty body,
the other arm is `continue` — in Rust both advance the *for* loop, so
the pass reads every entry and changes nothing. The traversal is made
explicit so that reading-only is a proved fact rather than a convention. -/
def drainPass : Registry T → Registry T
  | [] => []
  | (id, c) :: rest =>
    match c.state with
    | CogState.Done _ => (id, c) :: drainPass rest
    | _ => (id, c) :: drainPass rest

/-- Model of `Machine::wait_until_done` (`machine.rs` lines 331-342), with fuel
for the outer `loop`. In the source the `continue` inside the `for`
targets the `for` itself, not the outer `loop`; when the `for` finishes,
control falls through to `return`. Hence every outer-loop iteration
returns, whatever the states are. -/
def Machine.wait_until_done_fuel (m : Machine T) : Nat → Option (Machine T)
  | 0 => none
  | _ + 1 => some { m with cogs := drainPass m.cogs }

/-- Successive `insert_cog` calls, collecting the returned ids. -/
def Machine.submitAll (m : Machine T) : List (CogWork T) → Machine T × List CogId
  | [] => (m, [])
  | w :: ws =>
    let r := m.insert_cog w
    let r2 := r.1.submitAll ws
    (r2.1, r.2 :: r2.2)

/-- Is this state the `Removed` state? -/
def isRemovedState : CogState T → Bool
  | CogState.Removed => true
  | _ => false

/-- Is this state the `Running` state? -/
def isRunningState : CogState T → Bool
  | CogState.Running => true
  | _ => false

/-- Is this state `Done` or `Panicked` — the two states in which
`Cog::run` has finished and set the latch? -/
def isFinishedState : CogState T → Bool
  | CogState.Done _ => true
  | CogState.Panicked => true
  | _ => false

/-- Is this retrieval outcome the `Removed` error? -/
def isRemovedErr : Except CogError T → Bool
  | Except.error CogError.Removed => true
  | _ => false

/-- Registry invariant: no stored unit is in the `Removed` state. -/
def noRemoved (m : Machine T) : Bool :=
  m.cogs.all fun p => !(isRemovedState p.2.state)

/-- A reachable pool state with one submitted but never-run unit: a cold
pool (no engines) after one `insert_cog`. The unit is `Waiting`. -/
def coldJammedPool : Machine Nat :=
  ((Machine.cold Nat 2).insert_cog (some 42)).1

/-- A reachable pool state holding a completed unit: engine 0 ran unit 0
to completion (`Done 7`, latch true) and pushed nothing else. -/
def donePool : Machine Nat :=
  { cog_id := 1, engine_id := 1,
    cogs := [(0, { id := 0, done := true, state := CogState.Done 7, func := none })],
    max_engines := 1,
    engines := [{ _id := 0, local_queue := [], termination_flag := false }],
    work := true }

/- ------------------------------------------------------------------ -/
/- Helper lemmas                                                      -/
/- ------------------------------------------------------------------ -/

theorem secondLock_eq (during : Cog T → Cog T) (c : Cog T) :
    secondLock during c = during c := by
  rcases c with ⟨cid, cdone, cstate, cfunc⟩
  cases cstate <;> rfl

theorem drainPass_eq (l : Registry T) : drainPass l = l := by
  induction l with
  | nil => rfl
  | cons p rest ih =>
    obtain ⟨id, c⟩ := p
    rcases c with ⟨cid, cdone, cstate, cfunc⟩
    cases cstate <;> simp [drainPass, ih]

theorem regLookup_regRemove (k : CogId) (l : Registry T) :
    regLookup k (regRemove k l) = none := by
  induction l with
  | nil => rfl
  | cons p rest ih =>
    obtain ⟨k1, v⟩ := p
    by_cases h : k = k1
    · subst h
      simp [regRemove, ih]
    · simp [regRemove, regLookup, h, ih]

theorem regLookup_mem {k : CogId} {l : Registry T} {v : Cog T}
    (h : regLookup k l = some v) : (k, v) ∈ l := by
  induction l with
  | nil => simp [regLookup] at h
  | cons p rest ih =>
    obtain ⟨k1, w⟩ := p
    by_cases hk : k = k1
    · rw [regLookup, if_pos hk] at h
      subst hk
      simp at h
      simp [h]
    · rw [regLookup, if_neg hk] at h
      exact List.mem_cons_of_mem _ (ih h)

theorem mem_regInsert {p : CogId × Cog T} {k : CogId} {v : Cog T} {l : Registry T}
    (h : p ∈ regInsert k v l) : p = (k, v) ∨ p ∈ l := by
  induction l with
  | nil => simpa [regInsert] using h
  | cons q rest ih =>
    obtain ⟨k1, w⟩ := q
    by_cases hk : k = k1
    · rw [regInsert, if_pos hk] at h
      rcases List.mem_cons.mp h with h1 | h1
      · exact Or.inl h1
      · exact Or.inr (List.mem_cons_of_mem _ h1)
    · rw [regInsert, if_neg hk] at h
      rcases List.mem_cons.mp h with h1 | h1
      · exact Or.inr (by simp [h1])
      · rcases ih h1 with h2 | h2
        · exact Or.inl h2
        · exact Or.inr (List.mem_cons_of_mem _ h2)

theorem mem_regRemove {p : CogId × Cog T} {k : CogId} {l : Registry T}
    (h : p ∈ regRemove k l) : p ∈ l ∧ ¬(p.1 = k) := by
  induction l with
  | nil => simp [regRemove] at h
  | cons q rest ih =>
    obtain ⟨k1, w⟩ := q
    by_cases hk : k = k1
    · rw [regRemove, if_pos hk] at h
      obtain ⟨h1, h2⟩ := ih h
      exact ⟨List.mem_cons_of_mem _ h1, h2⟩
    · rw [regRemove, if_neg hk] at h
      rcases List.mem_cons.mp h with h1 | h1
      · refine ⟨by simp [h1], ?_⟩
        subst h1
        simpa using fun hcontra => hk hcontra.symm
      · obtain ⟨h2, h3⟩ := ih h1
        exact ⟨List.mem_cons_of_mem _ h2, h3⟩

theorem get_result_nonterminal_eq {c : Cog T}
    (h : resultIsTerminal c.get_result.1 = false) : c.get_result.2 = c := by
  rcases c with ⟨cid, cdone, cstate, cfunc⟩
  cases cstate <;> simp [Cog.get_result, resultIsTerminal] at h ⊢

theorem get_result_not_removedErr {c : Cog T}
    (h : isRemovedState c.state = false) : isRemovedErr c.get_result.1 = false := by
  rcases c with ⟨cid, cdone, cstate, cfunc⟩
  cases cstate <;> simp [Cog.get_result, isRemovedErr, isRemovedState] at h ⊢

theorem finished_get_result_terminal {c : Cog T}
    (h : isFinishedState c.state = true) : resultIsTerminal c.get_result.1 = true := by
  rcases c with ⟨cid, cdone, cstate, cfunc⟩
  cases cstate <;> simp [Cog.get_result, resultIsTerminal, isFinishedState] at h ⊢

theorem wait_for_result_not_inserted (m : Machine T) (id : CogId) (during : Cog T → Cog T)
    (h : regLookup id m.cogs = none) :
    m.wait_for_result id during = (Except.error (CogError.NotInserted id), m) := by
  unfold Machine.wait_for_result
  rw [h]

theorem wait_for_result_some (m : Machine T) (id : CogId) (during : Cog T → Cog T)
    (cog : Cog T) (hl : regLookup id m.cogs = some cog) :
    m.wait_for_result id during =
      (((during cog).get_result).1,
       if resultIsTerminal ((during cog).get_result).1 = true then
         { m with cogs := regRemove id (regInsert id ((during cog).get_result).2 m.cogs) }
       else { m with cogs := regInsert id ((during cog).get_result).2 m.cogs }) := by
  by_cases ht : resultIsTerminal ((during cog).get_result).1 = true
  · simp [Machine.wait_for_result, hl, secondLock_eq, ht]
  · simp [Machine.wait_for_result, hl, secondLock_eq, ht]

theorem get_result_eq_wait (m : Machine T) (id : CogId) :
    m.get_result id = m.wait_for_result id (fun c => c) := by
  unfold Machine.get_result Machine.wait_for_result
  cases hl : regLookup id m.cogs with
  | none => rfl
  | some cog => simp [secondLock_eq]

theorem wait_for_result_terminal_lookup (m : Machine T) (id : CogId) (during : Cog T → Cog T)
    (h : resultIsTerminal (m.wait_for_result id during).1 = true) :
    regLookup id (m.wait_for_result id during).2.cogs = none := by
  cases hl : regLookup id m.cogs with
  | none =>
    rw [wait_for_result_not_inserted m id during hl] at h
    simp [resultIsTerminal] at h
  | some cog =>
    have ht : resultIsTerminal ((during cog).get_result).1 = true := by
      rw [wait_for_result_some m id during cog hl] at h
      simpa using h
    rw [wait_for_result_some m id during cog hl]
    simp [ht, regLookup_regRemove]

theorem get_result_terminal_lookup (m : Machine T) (id : CogId)
    (h : resultIsTerminal (m.get_result id).1 = true) :
    regLookup id (m.get_result id).2.cogs = none := by
  rw [get_result_eq_wait] at h ⊢
  exact wait_for_result_terminal_lookup m id _ h

theorem retrieval_after_gone (m : Machine T) (id : CogId) (during : Cog T → Cog T)
    (h : regLookup id m.cogs = none) :
    (m.get_result id).1 = Except.error (CogError.NotInserted id)
    ∧ (m.wait_for_result id during).1 = Except.error (CogError.NotInserted id) := by
  constructor
  · rw [get_result_eq_wait, wait_for_result_not_inserted m id _ h]
  · rw [wait_for_result_not_inserted m id during h]

theorem wait_preserves_noRemoved (m : Machine T) (id : CogId) (during : Cog T → Cog T)
    (hm : noRemoved m = true)
    (hdur : ∀ c : Cog T, isRemovedState c.state = false → isRemovedState (during c).state = false) :
    noRemoved (m.wait_for_result id during).2 = true
    ∧ isRemovedErr (m.wait_for_result id during).1 = false := by
  cases hl : regLookup id m.cogs with
  | none =>
    rw [wait_for_result_not_inserted m id during hl]
    exact ⟨hm, rfl⟩
  | some cog =>
    have hcog : isRemovedState cog.state = false := by
      have hmem := regLookup_mem hl
      have := (List.all_eq_true.mp hm) _ hmem
      simpa using this
    have hc1 : isRemovedState (during cog).state = false := hdur cog hcog
    rw [wait_for_result_some m id during cog hl]
    refine ⟨?_, by simpa using get_result_not_removedErr hc1⟩
    by_cases ht : resultIsTerminal ((during cog).get_result).1 = true
    · simp only [ht, if_true]
      rw [noRemoved, List.all_eq_true]
      intro p hp
      obtain ⟨hp1, hpk⟩ := mem_regRemove hp
      rcases mem_regInsert hp1 with h1 | h1
      · exact absurd (by rw [h1]) hpk
      · have := (List.all_eq_true.mp hm) _ h1
        simpa using this
    · rw [Bool.not_eq_true] at ht
      simp only [ht, Bool.false_eq_true, if_false]
      have hkeep : ((during cog).get_result).2 = during cog := get_result_nonterminal_eq ht
      rw [noRemoved, List.all_eq_true]
      intro p hp
      rcases mem_regInsert hp with h1 | h1
      · rw [h1]
        simpa [hkeep] using hc1
      · have := (List.all_eq_true.mp hm) _ h1
        simpa using this

theorem regInsert_regInsert (k : CogId) (v w : Cog T) (l : Registry T) :
    regInsert k v (regInsert k w l) = regInsert k v l := by
  induction l with
  | nil => simp [regInsert]
  | cons p rest ih =>
    obtain ⟨k1, u⟩ := p
    by_cases h : k = k1
    · subst h
      simp [regInsert]
    · simp [regInsert, h, ih]

theorem buildBatch_snd (id : CogId) (fs : List (CogWork T)) :
    ∀ cogs : Registry T, (buildBatch id cogs fs).2 = fs.map (Cog.new id) := by
  induction fs with
  | nil => intro cogs; rfl
  | cons f fs ih => intro cogs; simp [buildBatch, ih]

theorem buildBatch_fst (id : CogId) :
    ∀ (fs : List (CogWork T)) (h : fs ≠ []) (cogs : Registry T),
      (buildBatch id cogs fs).1 = regInsert id (Cog.new id (fs.getLast h)) cogs
  | [], h, _ => absurd rfl h
  | [f], _, cogs => by simp [buildBatch]
  | f :: g :: fs, _, cogs => by
    have ih := buildBatch_fst id (g :: fs) (by simp) (regInsert id (Cog.new id f) cogs)
    show (buildBatch id (regInsert id (Cog.new id f) cogs) (g :: fs)).1 = _
    rw [ih, regInsert_regInsert]
    rfl

theorem insert_cog_ret (m : Machine T) (w : CogWork T) : (m.insert_cog w).2 = m.cog_id := rfl

theorem insert_cog_next (m : Machine T) (w : CogWork T) :
    (m.insert_cog w).1.cog_id = m.cog_id + 1 := rfl

theorem submitAll_ids (ws : List (CogWork T)) :
    ∀ m : Machine T, (m.submitAll ws).2 = (List.range ws.length).map (fun k => m.cog_id + k) := by
  induction ws with
  | nil => intro m; rfl
  | cons w ws ih =>
    intro m
    have h1 : (m.submitAll (w :: ws)).2
        = m.cog_id :: (List.range ws.length).map (fun k => m.cog_id + 1 + k) := by
      show (m.insert_cog w).2 :: ((m.insert_cog w).1.submitAll ws).2 = _
      rw [ih]
      rfl
    have htail : List.map (fun k => m.cog_id + 1 + k) (List.range ws.length)
        = List.map ((fun k => m.cog_id + k) ∘ Nat.succ) (List.range ws.length) :=
      List.map_congr_left (fun a _ => by
        have hb : ((fun k => m.cog_id + k) ∘ Nat.succ) a = m.cog_id + (1 + a) := by
          rw [Function.comp_apply, Nat.succ_eq_add_one, Nat.add_comm a 1]
        rw [hb, Nat.add_assoc])
    rw [h1, htail]
    simp only [List.length_cons, List.range_succ_eq_map, List.map_cons, List.map_map,
      Nat.add_zero]

theorem stealGo_none (P self : Nat) (l : List (Engine T)) :
    ∀ i : Nat,
      (∀ k, k < l.length → i + k ≠ self → (l.getD k default).local_queue = []) →
      stealGo P self i l = (none, l) := by
  induction l with
  | nil => intro i _; rfl
  | cons e es ih =>
    intro i h
    have hrec : stealGo P self (i + 1) es = (none, es) := by
      apply ih
      intro k hk hks
      have := h (k + 1) (by simpa using Nat.succ_lt_succ hk) (by omega)
      simpa using this
    by_cases hi : i = self
    · subst hi
      simp [stealGo, hrec]
    · have he : e.local_queue = [] := by
        have := h 0 (by simp) (by omega)
        simpa using this
      simp [stealGo, hi, he, hrec]

theorem stealGo_found (P self : Nat) (l : List (Engine T)) :
    ∀ i j : Nat, j < l.length → i + j ≠ self →
      (l.getD j default).local_queue ≠ [] →
      (∀ k, k < j → i + k ≠ self → (l.getD k default).local_queue = []) →
      stealGo P self i l =
        (some ((l.getD j default).local_queue.take
            (max 1 ((l.getD j default).local_queue.length / P))),
         l.set j { l.getD j default with
           local_queue := (l.getD j default).local_queue.drop
            (max 1 ((l.getD j default).local_queue.length / P)) }) := by
  induction l with
  | nil =>
    intro i j hj
    exact absurd hj (by simp)
  | cons e es ih =>
    intro i j hj hjs hq hbefore
    cases j with
    | zero =>
      have hi : ¬ i = self := by simpa using hjs
      have hlen : 0 < e.local_queue.length := List.length_pos.mpr (by simpa using hq)
      simp [stealGo, hi, hlen]
    | succ j1 =>
      have hj1 : j1 < es.length := by simpa using hj
      have hrec := ih (i + 1) j1 hj1 (by omega) (by simpa using hq) (fun k hk hks => by
        have := hbefore (k + 1) (Nat.succ_lt_succ hk) (by omega)
        simpa using this)
      by_cases hi : i = self
      · subst hi
        simp [stealGo, hrec]
      · have he : e.local_queue = [] := by
          have := hbefore 0 (Nat.succ_pos _) (by omega)
          simpa using this
        simp [stealGo, hi, he, hrec]

/- ------------------------------------------------------------------ -/
/- Claim theorems                                                     -/
/- ------------------------------------------------------------------ -/

/-- C1: whenever the id is registered, `wait_for_result` returns the
value or the panicked error, never the not-completed error. The
hypotheses are the source's synchronization facts: the engine executes
each unit under the cog's mutex held across all of `Cog::run`
(`engine.rs` line 70), so the facade's first lock never observes
`Running` (`hrun`); the registry holds no `Removed` unit (`hrem`, the
C8 invariant); when the observed state is `Waiting` the source blocks
on the latch condvar until the latch is true (`hwait`); the latch is
set only together with the transition to `Done`/`Panicked` (`hlatch`);
and nothing un-finishes a finished unit (`hstay`). Under these, the
retrieval outcome is `Ok` or `Panicked` — the terminal results — for
every observed state Waiting, Done or Panicked. -/
theorem claim_C1_wait_returns_value_or_panic (m : Machine T) (id : CogId)
    (during : Cog T → Cog T) (c : Cog T)
    (hreg : regLookup id m.cogs = some c)
    (hrun : isRunningState c.state = false)
    (hrem : isRemovedState c.state = false)
    (hwait : c.state = CogState.Waiting → (during c).done = true)
    (hlatch : (during c).done = true → isFinishedState (during c).state = true)
    (hstay : isFinishedState c.state = true → isFinishedState (during c).state = true) :
    resultIsTerminal (m.wait_for_result id during).1 = true := by
  rw [wait_for_result_some m id during c hreg]
  have hfin : isFinishedState (during c).state = true := by
    rcases c with ⟨cid, cdone, cstate, cfunc⟩
    cases cstate with
    | Waiting => exact hlatch (hwait rfl)
    | Running => simp [isRunningState] at hrun
    | Removed => simp [isRemovedState] at hrem
    | Panicked => exact hstay rfl
    | Done v => exact hstay rfl
  simpa using finished_get_result_terminal hfin

/-- Witness for C1: waiting on the completed unit 0 of `donePool`
(observed state `Done 7`, latch true, no interference) yields a
terminal outcome. -/
theorem claim_C1_wait_returns_value_or_panic_witness :
    resultIsTerminal (donePool.wait_for_result 0 (fun c => c)).1 = true :=
  claim_C1_wait_returns_value_or_panic donePool 0 (fun c => c)
    { id := 0, done := true, state := CogState.Done 7, func := none }
    rfl rfl rfl (by decide) (fun _ => rfl) (fun _ => rfl)

/-- C2 (code-bug exhibit): the claim says `wait_until_done` does not
return while any registered unit is Waiting or Running. In the source
the `continue` inside the `for` loop advances the `for`, not the outer
`loop`, so control always falls through to `return` after one pass:
here the pool still holds unit 0 in state `Waiting` (a cold pool, the
unit can never run), yet `wait_until_done` returns immediately. -/
theorem claim_C2_drain_returns_with_waiting_unit :
    coldJammedPool.wait_until_done_fuel 1 = some coldJammedPool
    ∧ (regLookup 0 coldJammedPool.cogs).map Cog.state = some CogState.Waiting :=
  ⟨rfl, rfl⟩

/-- C3: `Cog::get_result` performs exactly the case analysis the spec
gives for `take_result()`: Done moves the value out and goes to Removed;
Panicked goes to Removed with the panicked error; Waiting and Running
give the not-completed error unchanged; Removed gives the removed
error. `take_result_spec` is written from the spec's words. -/
theorem claim_C3_take_result_case_analysis (c : Cog T) :
    c.get_result = take_result_spec c := by
  rcases c with ⟨cid, cdone, cstate, cfunc⟩
  cases cstate <;> rfl

/-- C4: a steal pass walks the pool in order, skips the stealing engine,
and for the first peer with a non-empty queue removes exactly the prefix
of length `max 1 (len / P)` from the head, returning it in order and
leaving all other queues untouched; if every peer is empty nothing is
returned and no queue is modified. -/
theorem claim_C4_steal_policy (engines : List (Engine T)) (self : Nat) :
    ((∀ k, k < engines.length → k ≠ self → (engines.getD k default).local_queue = []) →
      Engine.cog_steal engines self = (none, engines))
    ∧ ∀ j, j < engines.length → j ≠ self → (engines.getD j default).local_queue ≠ [] →
      (∀ k, k < j → k ≠ self → (engines.getD k default).local_queue = []) →
      Engine.cog_steal engines self =
        (some ((engines.getD j default).local_queue.take
            (max 1 ((engines.getD j default).local_queue.length / engines.length))),
         engines.set j { engines.getD j default with
           local_queue := (engines.getD j default).local_queue.drop
            (max 1 ((engines.getD j default).local_queue.length / engines.length)) }) := by
  constructor
  · intro h
    exact stealGo_none engines.length self engines 0
      (fun k hk hks => h k hk (by simpa using hks))
  · intro j hj hjs hq hb
    exact stealGo_found engines.length self engines 0 j hj (by simpa using hjs) hq
      (fun k hk hks => hb k hk (by simpa using hks))

/-- Witness for C4: in a two-engine pool, engine 0 stealing from an
all-empty pool gets nothing and changes nothing; when engine 1 holds two
units, engine 0 steals exactly the head prefix of length
`max 1 (2 / 2) = 1`. -/
theorem claim_C4_steal_policy_witness :
    Engine.cog_steal ([{ _id := 0, local_queue := [], termination_flag := false },
        { _id := 1, local_queue := [], termination_flag := false }] : List (Engine Nat)) 0
      = (none, [{ _id := 0, local_queue := [], termination_flag := false },
        { _id := 1, local_queue := [], termination_flag := false }])
    ∧ Engine.cog_steal ([{ _id := 0, local_queue := [], termination_flag := false },
        { _id := 1, local_queue := [Cog.new 3 (some 1), Cog.new 3 (some 2)],
          termination_flag := false }] : List (Engine Nat)) 0
      = (some [Cog.new 3 (some 1)],
         [{ _id := 0, local_queue := [], termination_flag := false },
          { _id := 1, local_queue := [Cog.new 3 (some 2)], termination_flag := false }]) := by
  constructor
  · exact (claim_C4_steal_policy _ 0).1 (by decide)
  · have h := (claim_C4_steal_policy ([{ _id := 0, local_queue := [], termination_flag := false },
        { _id := 1, local_queue := [Cog.new 3 (some 1), Cog.new 3 (some 2)],
          termination_flag := false }] : List (Engine Nat)) 0).2 1
      (by decide) (by decide) (by decide) (by decide)
    rw [h]
    rfl

/-- C5: retrieval is destructive. When `get_result` or `wait_for_result`
returns a value or the panicked error, the id is deleted from the
registry and every later retrieval of that id gives `NotInserted`; an
id absent from the registry (never assigned, or already retrieved)
always gives `NotInserted`. -/
theorem claim_C5_destructive_retrieval (m : Machine T) (id : CogId)
    (during during1 : Cog T → Cog T) :
    (regLookup id m.cogs = none →
      (m.get_result id).1 = Except.error (CogError.NotInserted id)
      ∧ (m.wait_for_result id during).1 = Except.error (CogError.NotInserted id))
    ∧ (resultIsTerminal (m.get_result id).1 = true →
      regLookup id (m.get_result id).2.cogs = none
      ∧ ((m.get_result id).2.get_result id).1 = Except.error (CogError.NotInserted id)
      ∧ ((m.get_result id).2.wait_for_result id during).1
          = Except.error (CogError.NotInserted id))
    ∧ (resultIsTerminal (m.wait_for_result id during).1 = true →
      regLookup id (m.wait_for_result id during).2.cogs = none
      ∧ ((m.wait_for_result id during).2.get_result id).1
          = Except.error (CogError.NotInserted id)
      ∧ ((m.wait_for_result id during).2.wait_for_result id during1).1
          = Except.error (CogError.NotInserted id)) := by
  refine ⟨fun h => retrieval_after_gone m id during h, fun h => ?_, fun h => ?_⟩
  · have hg := get_result_terminal_lookup m id h
    exact ⟨hg, (retrieval_after_gone _ id during hg).1, (retrieval_after_gone _ id during hg).2⟩
  · have hg := wait_for_result_terminal_lookup m id during h
    exact ⟨hg, (retrieval_after_gone _ id during1 hg).1, (retrieval_after_gone _ id during1 hg).2⟩

/-- Witness for C5: retrieving the completed unit 0 of `donePool`
removes it, and both retrieval operations then report `NotInserted`. -/
theorem claim_C5_destructive_retrieval_witness :
    regLookup 0 (donePool.get_result 0).2.cogs = none
    ∧ ((donePool.get_result 0).2.get_result 0).1 = Except.error (CogError.NotInserted 0)
    ∧ ((donePool.get_result 0).2.wait_for_result 0 (fun c => c)).1
        = Except.error (CogError.NotInserted 0) :=
  (claim_C5_destructive_retrieval donePool 0 (fun c => c) (fun c => c)).2.1 rfl

/-- C6: successive `insert_cog` calls on a fresh pool return exactly the
ids 0, 1, 2, ... (each call returns the previous id plus one, starting
from zero), so no id is ever returned twice. -/
theorem claim_C6_submit_ids_sequential (T : Type) (n : Nat) (ws : List (CogWork T)) :
    ((Machine.cold T n).submitAll ws).2 = List.range ws.length
    ∧ ((Machine.cold T n).submitAll ws).2.Nodup := by
  have h2 : ((Machine.cold T n).submitAll ws).2 = List.range ws.length := by
    rw [submitAll_ids ws (Machine.cold T n)]
    have hz : (Machine.cold T n).cog_id = 0 := rfl
    rw [hz]
    simp
  exact ⟨h2, h2 ▸ List.nodup_range ws.length⟩

/-- C7: on a non-empty batch, `insert_cog_batch` reserves one id (the
current counter), creates one unit per entry all carrying that id,
inserts them into the registry under that id (leaving the last unit of
the batch as the entry), appends the whole batch in order to the queue
of engine `id mod P` when an engine exists (setting the work flag), and
advances the counter by exactly one; the reserved id is returned. -/
theorem claim_C7_batch_submit (m : Machine T) (funcs : List (CogWork T)) (h : funcs ≠ []) :
    m.insert_cog_batch funcs =
      (some m.cog_id,
       { m with
         cogs := regInsert m.cog_id (Cog.new m.cog_id (funcs.getLast h)) m.cogs,
         engines := if 0 < m.engines.length then
             extendQueue (m.cog_id % m.engines.length)
               (funcs.map (Cog.new m.cog_id)) m.engines
           else m.engines,
         work := if 0 < m.engines.length then true else m.work,
         cog_id := m.cog_id + 1 }) := by
  cases funcs with
  | nil => exact absurd rfl h
  | cons f fs =>
    have hsnd := buildBatch_snd m.cog_id (f :: fs) m.cogs
    have hfst := buildBatch_fst m.cog_id (f :: fs) h m.cogs
    by_cases he : 0 < m.engines.length
    · simp [Machine.insert_cog_batch, Machine.distribute_cog_batch, Machine.notify_work,
        hsnd, hfst, he, Cog.new]
    · simp [Machine.insert_cog_batch, Machine.distribute_cog_batch, Machine.notify_work,
        hsnd, hfst, he, Cog.new]

/-- Witness for C7: a two-entry batch on a freshly powered two-engine
pool: id 0 is returned, the registry holds the last unit under id 0, the
batch lands on engine 0's queue, and the counter advances to 1. -/
theorem claim_C7_batch_submit_witness :
    (Machine.powered Nat 2).insert_cog_batch [some 5, none] =
      (some (Machine.powered Nat 2).cog_id,
       { Machine.powered Nat 2 with
         cogs := regInsert (Machine.powered Nat 2).cog_id
           (Cog.new (Machine.powered Nat 2).cog_id
             (([some 5, none] : List (CogWork Nat)).getLast (by decide)))
           (Machine.powered Nat 2).cogs,
         engines := if 0 < (Machine.powered Nat 2).engines.length then
             extendQueue ((Machine.powered Nat 2).cog_id % (Machine.powered Nat 2).engines.length)
               (([some 5, none] : List (CogWork Nat)).map (Cog.new (Machine.powered Nat 2).cog_id))
               (Machine.powered Nat 2).engines
           else (Machine.powered Nat 2).engines,
         work := if 0 < (Machine.powered Nat 2).engines.length then true
           else (Machine.powered Nat 2).work,
         cog_id := (Machine.powered Nat 2).cog_id + 1 }) :=
  claim_C7_batch_submit (Machine.powered Nat 2) [some 5, none] (by decide)

/-- C8: the facade never keeps a `Removed` unit in the registry and
never surfaces the removed error: if no registered unit is `Removed`,
then after `get_result` or `wait_for_result` (for any engine
interference that never produces a `Removed` state — `Cog::run` cannot)
the registry again holds no `Removed` unit, and neither call returned
the removed error. -/
theorem claim_C8_no_removed_in_registry (m : Machine T) (id : CogId) (during : Cog T → Cog T)
    (hm : noRemoved m = true)
    (hdur : ∀ c : Cog T, isRemovedState c.state = false → isRemovedState (during c).state = false) :
    noRemoved (m.get_result id).2 = true
    ∧ isRemovedErr (m.get_result id).1 = false
    ∧ noRemoved (m.wait_for_result id during).2 = true
    ∧ isRemovedErr (m.wait_for_result id during).1 = false := by
  have hget := wait_preserves_noRemoved m id (fun c => c) hm (fun c hc => hc)
  have hwait := wait_preserves_noRemoved m id during hm hdur
  rw [get_result_eq_wait]
  exact ⟨hget.1, hget.2, hwait.1, hwait.2⟩

/-- Witness for C8: on `donePool` (no Removed unit registered), both
retrievals of unit 0 keep the registry free of Removed units and do not
surface the removed error. -/
theorem claim_C8_no_removed_in_registry_witness :
    noRemoved (donePool.get_result 0).2 = true
    ∧ isRemovedErr (donePool.get_result 0).1 = false
    ∧ noRemoved (donePool.wait_for_result 0 (fun c => c)).2 = true
    ∧ isRemovedErr (donePool.wait_for_result 0 (fun c => c)).1 = false :=
  claim_C8_no_removed_in_registry donePool 0 (fun c => c) rfl (fun _ hc => hc)

/-- C9: on the empty batch, `insert_cog_batch` panics (modelled `none`)
because `distribute_cog_batch` reads `cogs[0]` before checking the
engine count; at the unwind point no registry entry has been added and
the id counter has not been advanced — the machine is unchanged. -/
theorem claim_C9_empty_batch_panics (T : Type) (m : Machine T) :
    m.insert_cog_batch [] = (none, m) :=
  rfl

/-- C10: `wait_until_done` is read-only at the facade: whenever it
returns (any positive fuel for the outer loop), the machine — registry,
id counters, engines and work flag — is exactly what it was before the
call. -/
theorem claim_C10_drain_is_read_only (m : Machine T) (fuel : Nat) :
    m.wait_until_done_fuel (fuel + 1) = some m := by
  unfold Machine.wait_until_done_fuel
  rw [drainPass_eq]

end RustyCog
